import Mathlib

/-!
Shallow embedding of `src/sqlx-sqlite/src/index.rs` (the SQLite secondary
statistics index for parquet files) and proofs about its specification.

The embedding models:
- the persisted relational state (`file_statistics` / `row_group_statistics`
  tables) as Lean lists of rows,
- statistics extraction in `SQLiteIndex::add_file` (lines 195-364),
- the transactional upsert `SQLiteIndex::add_row` (lines 366-463),
- schema creation `SQLiteIndex::initialize` / `set_column_type` (465-563),
- the query path `SQLiteIndex::get_files` (lines 111-192), with the
  delegated DataFusion `PruningPredicate` and the SeaQuery SQL compilation
  modelled as an opaque row predicate over the stored wide statistics row
  (both are external capabilities per the source's imports).

Rust machine integers (i64/u64/usize) are modelled as `Int`; the casts that
matter to the claims (`as i64` widening in extraction) are explicit
(`asI64`).  A Rust panic is modelled as `Option.none` / `RustOutcome.panic`:
a panicking call commits nothing (the SQL transaction is dropped before
`commit`).
-/

namespace ParquetIndex

/-- Arrow data types that appear in the source's dispatch
(`DataType` match arms in `add_file` lines 232-351 and `set_column_type`
lines 544-563).  `nested` stands for every type not listed in
`set_column_type` (its `_ => todo!` arm). -/
inductive DataType
  | int8 | uint8 | int16 | uint16 | int32 | uint32 | int64 | uint64
  | float32 | float64 | utf8 | largeUtf8
  | binary | largeBinary | fixedSizeBinary (n : Nat)
  | nested
deriving DecidableEq

/-- One field of the index's target arrow schema (`self.schema`). -/
structure SchemaField where
  name : String
  dataType : DataType
  nullable : Bool
deriving DecidableEq

/-- Tagged min/max statistics union (source lines 571-575). -/
inductive MinMaxStats
  | int (min max : Int)
  | string (min max : String)
deriving DecidableEq

/-- Per-column statistics (source lines 595-599). -/
structure ColumnStatistics where
  null_count : Int
  stats : MinMaxStats
deriving DecidableEq

/-- Per-row-group insert payload (source lines 577-593). -/
structure RowGroupStatisticsInsert where
  row_group : Int
  row_count : Int
  column_statistics : List ColumnStatistics
deriving DecidableEq

/-- File-level insert payload (source lines 601-607). -/
structure FileStatisticsInsert where
  file_name : String
  file_size_bytes : Int
  row_group_count : Int
  row_count : Int
deriving DecidableEq

/-- A persisted row of the `file_statistics` table (DDL lines 492-501). -/
structure FileRow where
  file_id : Int
  file_name : String
  file_size_bytes : Int
  row_group_count : Int
  row_count : Int
deriving DecidableEq

/-- A persisted row of the wide `row_group_statistics` table (DDL lines
505-534): the base columns plus, for each indexed field in schema order,
the (null_count, min, max) triple that `add_row` binds positionally. -/
structure RowGroupRow where
  file_id : Int
  row_group : Int
  row_count : Int
  column_statistics : List ColumnStatistics
deriving DecidableEq

/-- The persisted SQLite state: the two tables plus the autoincrement
cursor for `file_statistics.file_id`. -/
structure DB where
  files : List FileRow
  rgs : List RowGroupRow
  next_id : Int
deriving DecidableEq

/-- Fresh database: SQLite rowids (AUTOINCREMENT) start at 1. -/
def emptyDB : DB := ⟨[], [], 1⟩

/-- Rust `as i64`: reinterpret an integer value two's-complement into the
signed 64-bit range.  Identity exactly on `[-2^63, 2^63)`. -/
def asI64 (v : Int) : Int := (v + 2 ^ 63) % 2 ^ 64 - 2 ^ 63

/-- Rust `as u64`: reinterpret into the unsigned 64-bit range. -/
def asU64 (v : Int) : Int := v % 2 ^ 64

/-! ## Statistics extraction (`add_file`, lines 207-360)

The `StatisticsConverter` capability yields, per indexed column, typed
arrays of per-row-group minima, maxima and (u64) null counts.  A
`ColumnArrays` bundle models those arrays: `minInt`/`maxInt` are read for
the integer-typed arms, `minStr`/`maxStr` for the string-typed arms. -/

structure ColumnArrays where
  minInt : Nat → Int
  maxInt : Nat → Int
  minStr : Nat → String
  maxStr : Nat → String
  nullCount : Nat → Int

/-- What `add_file` reads out of one parquet file's footer metadata. -/
structure ParquetFile where
  numRowGroups : Nat
  rowCounts : Nat → Int
  fileSize : Int
  numRows : Int
  columns : String → ColumnArrays

/-- The per-(field, row-group) dispatch of `add_file` lines 232-351: each
supported integer width stores `Int` stats via `as i64`, the two string
types store `String` stats, and every other type falls into the
`_ => {}` arm (line 350) producing no statistics. -/
def extractColumnStats (dt : DataType) (a : ColumnArrays) (rg : Nat) :
    Option ColumnStatistics :=
  match dt with
  | .int8 => some ⟨asI64 (a.nullCount rg), .int (asI64 (a.minInt rg)) (asI64 (a.maxInt rg))⟩
  | .uint8 => some ⟨asI64 (a.nullCount rg), .int (asI64 (a.minInt rg)) (asI64 (a.maxInt rg))⟩
  | .int16 => some ⟨asI64 (a.nullCount rg), .int (asI64 (a.minInt rg)) (asI64 (a.maxInt rg))⟩
  | .uint16 => some ⟨asI64 (a.nullCount rg), .int (asI64 (a.minInt rg)) (asI64 (a.maxInt rg))⟩
  | .int32 => some ⟨asI64 (a.nullCount rg), .int (asI64 (a.minInt rg)) (asI64 (a.maxInt rg))⟩
  | .uint32 => some ⟨asI64 (a.nullCount rg), .int (asI64 (a.minInt rg)) (asI64 (a.maxInt rg))⟩
  | .int64 => some ⟨asI64 (a.nullCount rg), .int (a.minInt rg) (a.maxInt rg)⟩
  | .utf8 => some ⟨asI64 (a.nullCount rg), .string (a.minStr rg) (a.maxStr rg)⟩
  | .largeUtf8 => some ⟨asI64 (a.nullCount rg), .string (a.minStr rg) (a.maxStr rg)⟩
  | _ => none

/-- Net effect of `add_file` lines 213-353: one insert record per row group
(0-indexed, with its row count), whose `column_statistics` are pushed in
schema order, skipping unsupported fields.  (The source initializes the
vector from the row counts and then loops fields-outer / row-groups-inner,
pushing onto `row_group_statistics[row_group].column_statistics`; for each
row group this yields exactly the supported fields in schema order.) -/
def extractRowGroupStatistics (schema : List SchemaField) (pf : ParquetFile) :
    List RowGroupStatisticsInsert :=
  (List.range pf.numRowGroups).map fun rg =>
    { row_group := Int.ofNat rg
      row_count := pf.rowCounts rg
      column_statistics :=
        schema.filterMap fun fld => extractColumnStats fld.dataType (pf.columns fld.name) rg }

/-! ## Schema creation (`initialize` and `set_column_type`, lines 465-563) -/

/-- SeaQuery column types used by `set_column_type`. -/
inductive SqlColumnType
  | tinyInteger | tinyUnsigned | smallInteger | smallUnsigned
  | integer | unsigned | bigInteger | bigUnsigned
  | float | double | text | blob
deriving DecidableEq

/-- Embedding of `set_column_type` (lines 544-563); `none` models the
`_ => todo!` panic arm. -/
def set_column_type (dt : DataType) : Option SqlColumnType :=
  match dt with
  | .int8 => some .tinyInteger
  | .uint8 => some .tinyUnsigned
  | .int16 => some .smallInteger
  | .uint16 => some .smallUnsigned
  | .int32 => some .integer
  | .uint32 => some .unsigned
  | .int64 => some .bigInteger
  | .uint64 => some .bigUnsigned
  | .float32 => some .float
  | .float64 => some .double
  | .utf8 => some .text
  | .largeUtf8 => some .text
  | .binary => some .blob
  | .fixedSizeBinary _ => some .blob
  | .largeBinary => some .blob
  | .nested => none

/-- The three statistics columns `initialize` declares for one schema
field (lines 520-534): `<name>_null_count` (integer), then `<name>_min`
and `<name>_max` typed by `set_column_type`.  `none` when
`set_column_type` panics. -/
def fieldStatColumns (f : SchemaField) : Option (List (String × SqlColumnType)) :=
  match set_column_type f.dataType with
  | none => none
  | some t =>
      some [(f.name ++ "_null_count", .integer), (f.name ++ "_min", t), (f.name ++ "_max", t)]

/-- Column list of the `row_group_statistics` table created by
`initialize` (lines 505-538): base columns, then three per schema field.
`none` models an `initialize` panic on an unsupported type. -/
def statsTableColumns (schema : List SchemaField) :
    Option (List (String × SqlColumnType)) :=
  (schema.mapM fieldStatColumns).map fun per =>
    [("file_id", SqlColumnType.integer), ("row_group", SqlColumnType.integer),
     ("row_count", SqlColumnType.integer)] ++ per.flatten

/-! ## The upsert transaction (`add_row`, lines 366-463) -/

/-- SQL values bound by `add_row`'s bulk insert. -/
inductive SqlValue
  | int (v : Int)
  | text (s : String)
deriving DecidableEq

/-- Column list of `add_row`'s bulk insert (lines 413-423): base columns
plus `<name>_null_count`, `<name>_min`, `<name>_max` for every schema
field. -/
def insertColumns (schema : List SchemaField) : List String :=
  ["file_id", "row_group", "row_count"] ++
    schema.flatMap fun f => [f.name ++ "_null_count", f.name ++ "_min", f.name ++ "_max"]

/-- Values bound for one row of `add_row`'s bulk insert (lines 430-452):
base values plus one (null_count, min, max) triple per extracted column
statistic. -/
def rowValues (file_id : Int) (s : RowGroupStatisticsInsert) : List SqlValue :=
  [.int file_id, .int s.row_group, .int s.row_count] ++
    s.column_statistics.flatMap fun cs =>
      match cs.stats with
      | .int mn mx => [.int cs.null_count, .int mn, .int mx]
      | .string mn mx => [.int cs.null_count, .text mn, .text mx]

/-- The `ON CONFLICT (file_name) DO UPDATE` effect on a conflicting
`file_statistics` row (lines 389-397): size and counts are updated,
`file_id` and `file_name` are kept. -/
def applyUpdate (f : FileStatisticsInsert) (r : FileRow) : FileRow :=
  { r with
    file_size_bytes := f.file_size_bytes
    row_group_count := f.row_group_count
    row_count := f.row_count }

/-- The insert-or-update of the `file_statistics` row keyed by the unique
`file_name`, returning the updated table state and the `RETURNING file_id`
value (lines 375-402). -/
def upsertFile (db : DB) (f : FileStatisticsInsert) : DB × Int :=
  match db.files.find? fun r => decide (r.file_name = f.file_name) with
  | some r =>
      ({ db with
          files := db.files.map fun r' =>
            if r'.file_name = f.file_name then applyUpdate f r' else r' },
        r.file_id)
  | none =>
      ({ db with
          files := db.files ++
            [⟨db.next_id, f.file_name, f.file_size_bytes, f.row_group_count, f.row_count⟩]
          next_id := db.next_id + 1 },
        db.next_id)

/-- Conversion of one insert payload into a persisted wide row. -/
def toRGRow (file_id : Int) (s : RowGroupStatisticsInsert) : RowGroupRow :=
  ⟨file_id, s.row_group, s.row_count, s.column_statistics⟩

/-- Embedding of `add_row` (lines 366-463): `initialize` (modelled by its
column derivation, which panics for `todo!` types), then one transaction
that upserts the file row, deletes all `row_group_statistics` rows for the
returned `file_id`, and bulk-inserts the new rows.  `values_panic`
(line 451) panics when a row's value count differs from the insert's
column count; a panic aborts before `commit`, so `none` leaves the
persisted state unchanged. -/
def addRow (schema : List SchemaField) (db : DB) (f : FileStatisticsInsert)
    (rgss : List RowGroupStatisticsInsert) : Option DB :=
  match statsTableColumns schema with
  | none => none
  | some _ =>
      let u := upsertFile db f
      if rgss.all fun s => decide ((rowValues u.2 s).length = (insertColumns schema).length)
      then
        some
          { files := u.1.files
            rgs := (u.1.rgs.filter fun r => decide (r.file_id ≠ u.2)) ++
              rgss.map (toRGRow u.2)
            next_id := u.1.next_id }
      else none

/-! ## Ingestion entry point (`add_file`, lines 195-364) -/

/-- Model of `std::ffi::OsStr`: `toStr` is `OsStr::to_str`, `some` exactly
when the name is valid UTF-8. -/
structure OsString where
  toStr : Option String
deriving DecidableEq

/-- Model of the `&Path` argument: `fileName` is `Path::file_name()`,
`none` when the path has no final normal component (e.g. ends in `..`). -/
structure PathArg where
  fileName : Option OsString
deriving DecidableEq

/-- The UTF-8 final component of a path, when it exists. -/
def pathString (p : PathArg) : Option String :=
  p.fileName.bind fun os => os.toStr

/-- Failure of the metadata/open/footer-parse chain (lines 201-207). -/
inductive IoError
  | ioError (msg : String)
deriving DecidableEq

/-- DataFusion-side errors raised by `add_file`'s prelude. -/
inductive DFError
  | noFilename
  | invalidFilename
  | io (e : IoError)
deriving DecidableEq

/-- Outcome of running a fallible Rust function that can also panic. -/
inductive RustOutcome (ε α : Type)
  | ok (a : α)
  | error (e : ε)
  | panic
deriving DecidableEq

/-- Embedding of `add_file` (lines 195-364): resolve the final path
component (error `No filename` when absent), require it to be UTF-8
(error `Invalid filename`), then read size/metadata (any IO or footer
failure propagates), extract statistics, and hand the payloads to
`add_row`.  The file-reading chain is collapsed into the
`Except IoError ParquetFile` argument; it is only consulted after both
name checks succeed. -/
def addFile (schema : List SchemaField) (db : DB) (p : PathArg)
    (pfE : Except IoError ParquetFile) : RustOutcome DFError DB :=
  match p.fileName with
  | none => .error .noFilename
  | some os =>
      match os.toStr with
      | none => .error .invalidFilename
      | some file_name =>
          match pfE with
          | .error e => .error (.io e)
          | .ok pf =>
              match addRow schema db
                  (⟨file_name, pf.fileSize, (pf.numRowGroups : Int),
                    pf.numRows⟩ : FileStatisticsInsert)
                  (extractRowGroupStatistics schema pf) with
              | some db' => .ok db'
              | none => .panic

/-! ## The query path (`get_files`, lines 111-192)

`get_files` builds a pruning predicate with DataFusion's
`PruningPredicate` (external capability, line 118), rewrites row-count
placeholder columns (lines 121-129, embedded below as `rewriteRowCount`),
compiles to SQL via `physical_expr_to_sea_query` (external `rewrite`
module), and runs:

  WITH row_groups AS
    (SELECT file_id, row_group FROM row_group_statistics WHERE <predicate>)
  SELECT DISTINCT file_name, file_size_bytes, row_group_count, row_group
  FROM file_statistics INNER JOIN row_groups USING (file_id)

The compiled WHERE clause evaluates over one wide `row_group_statistics`
row, so the delegated transform plus SQL compilation is modelled as an
opaque total predicate `q : RowGroupRow → Bool`. -/

/-- One row of `get_files`'s SQL result: the
`(file_name, file_size_bytes, row_group_count, row_group)` tuple
(line 164). -/
structure CandidateRow where
  file_name : String
  file_size_bytes : Int
  row_group_count : Int
  row_group : Int
deriving DecidableEq

/-- The CTE + join + DISTINCT of lines 133-162: stats rows satisfying the
predicate, each joined with every `file_statistics` row sharing its
`file_id`, deduplicated. -/
def findCandidates (db : DB) (q : RowGroupRow → Bool) : List CandidateRow :=
  ((db.rgs.filter q).flatMap fun r =>
      (db.files.filter fun f => decide (f.file_id = r.file_id)).map fun f =>
        CandidateRow.mk f.file_name f.file_size_bytes f.row_group_count r.row_group).dedup

/-- Per-row-group access decision (`RowGroupAccess`). -/
inductive RowGroupAccess
  | scan
  | skip
deriving DecidableEq

/-- `ParquetAccessPlan::new_none(n)`: every row group defaults to Skip. -/
def newNone (n : Nat) : List RowGroupAccess := List.replicate n .skip

/-- The per-file scan plan returned by `get_files` (lines 565-569). -/
structure FileScanPlan where
  file_size : Int
  access_plan : List RowGroupAccess
deriving DecidableEq

/-- One step of the grouping loop of lines 169-178: look up the file's
entry (inserting `(file_size, new_none(row_group_count))` from this row
when absent) and set its `row_group` to Scan.  The map is modelled as an
association list keyed by `file_name`. -/
def applyRow (acc : List (String × FileScanPlan)) (r : CandidateRow) :
    List (String × FileScanPlan) :=
  if (acc.find? fun e => decide (e.1 = r.file_name)).isSome then
    acc.map fun e =>
      if e.1 = r.file_name then
        (e.1, ⟨e.2.file_size, e.2.access_plan.set r.row_group.toNat .scan⟩)
      else e
  else
    acc ++ [(r.file_name,
      ⟨r.file_size_bytes, (newNone r.row_group_count.toNat).set r.row_group.toNat .scan⟩)]

/-- The whole grouping loop (lines 169-178). -/
def assemblePlans (rows : List CandidateRow) : List (String × FileScanPlan) :=
  rows.foldl applyRow []

/-- Lines 180-191: emit each grouped entry, with `file_size as u64`. -/
def planFromRows (rows : List CandidateRow) : List (String × FileScanPlan) :=
  (assemblePlans rows).map fun e => (e.1, ⟨asU64 e.2.file_size, e.2.access_plan⟩)

/-- The successful query path of `get_files`, from the persisted state and
the compiled pruning predicate. -/
def getFiles (db : DB) (q : RowGroupRow → Bool) : List (String × FileScanPlan) :=
  planFromRows (findCandidates db q)

/-- SQL/connectivity failure from the sqlx backend. -/
inductive StoreError
  | sqlx (msg : String)
deriving DecidableEq

/-- What `get_files` does with the outcome of the statistics query
(lines 164-167): the fetched `Result` is `.unwrap()`ed, so an `Err` from
the store panics instead of being returned. -/
def getFilesFromFetch (fetch : Except StoreError (List CandidateRow)) :
    RustOutcome StoreError (List (String × FileScanPlan)) :=
  match fetch with
  | .error _ => .panic
  | .ok rows => .ok (planFromRows rows)

/-! ## The row-count placeholder rewrite (`get_files` lines 120-129) -/

/-- Minimal physical expression tree: column references (with their
schema index), literals, and binary nodes. -/
inductive PhysExpr
  | column (name : String) (index : Nat)
  | literal (v : SqlValue)
  | binary (op : String) (lhs rhs : PhysExpr)
deriving DecidableEq

/-- Rust `str::ends_with` on byte content. -/
def strEndsWith (s pat : String) : Bool := pat.data.isSuffixOf s.data

/-- Drop the last `n` characters. -/
def strDropRight (s : String) (n : Nat) : String :=
  ⟨s.data.take (s.data.length - n)⟩

/-- Fuel-indexed loop of Rust `str::trim_end_matches`: repeatedly strip a
trailing occurrence of `pat`.  Each step removes at least one character,
so fuel `s.length` suffices. -/
def trimEndAux (pat : String) : Nat → String → String
  | 0, s => s
  | fuel + 1, s =>
      if 0 < pat.length ∧ strEndsWith s pat then
        trimEndAux pat fuel (strDropRight s pat.length)
      else s

/-- Rust `str::trim_end_matches(pat)`. -/
def trimEndMatches (s pat : String) : String := trimEndAux pat s.length s

/-- Embedding of the `predicate.transform(..)` closure of lines 121-129:
every column leaf whose name ends with `_row_count` is replaced by a
column named `trim_end_matches(name, "_row_count")` with the same index;
other nodes are left unchanged and the rewrite recurses through the
tree. -/
def rewriteRowCount : PhysExpr → PhysExpr
  | .column name i =>
      if strEndsWith name "_row_count" then
        .column (trimEndMatches name "_row_count") i
      else .column name i
  | .literal v => .literal v
  | .binary op l r => .binary op (rewriteRowCount l) (rewriteRowCount r)

/-! ## Invariants of the persisted state -/

/-- Well-formedness of the persisted state, maintained by ingestion:
`file_id` and `file_name` are unique in `file_statistics`, ids stay below
the autoincrement cursor, and every statistics row's `row_group` lies in
`[0, row_group_count)` of its file. -/
def Wf (db : DB) : Prop :=
  (db.files.map fun f => f.file_id).Nodup ∧
  (db.files.map fun f => f.file_name).Nodup ∧
  (∀ f ∈ db.files, f.file_id < db.next_id) ∧
  ∀ r ∈ db.rgs, ∀ f ∈ db.files, f.file_id = r.file_id →
    0 ≤ r.row_group ∧ r.row_group < f.row_group_count

instance (db : DB) : Decidable (Wf db) := by
  unfold Wf; infer_instance

/-- States reachable by ingesting files through `add_file`, starting from
a fresh database. -/
inductive Reachable (schema : List SchemaField) : DB → Prop
  | init : Reachable schema emptyDB
  | step (db : DB) (p : PathArg) (pfE : Except IoError ParquetFile) (db' : DB) :
      Reachable schema db → addFile schema db p pfE = .ok db' → Reachable schema db'

/-! ## List helper lemmas -/

theorem find?_map_of_pred {α : Type} (g : α → α) (p : α → Bool)
    (hg : ∀ a, p (g a) = p a) (l : List α) :
    (l.map g).find? p = (l.find? p).map g := by
  induction l with
  | nil => rfl
  | cons x xs ih =>
      by_cases hx : p x = true
      · rw [List.map_cons, List.find?_cons_of_pos _ (by rw [hg]; exact hx),
          List.find?_cons_of_pos _ hx]
        rfl
      · rw [List.map_cons, List.find?_cons_of_neg _ (by rw [hg]; exact hx),
          List.find?_cons_of_neg _ hx, ih]

/-! ## Characterization of the plan-assembly fold -/

/-- The row-group indices that the grouping loop flips to Scan for one
file name, in processing order. -/
def scanIdxs (rows : List CandidateRow) (fn : String) : List Nat :=
  (rows.filter fun r => decide (r.file_name = fn)).map fun r => r.row_group.toNat

/-- Repeatedly apply `access_plan.set i Scan`. -/
def setScans (p : List RowGroupAccess) (idxs : List Nat) : List RowGroupAccess :=
  idxs.foldl (fun q i => q.set i .scan) p

theorem setScans_cons (p : List RowGroupAccess) (i : Nat) (t : List Nat) :
    setScans p (i :: t) = setScans (p.set i .scan) t := rfl

theorem length_setScans (idxs : List Nat) (p : List RowGroupAccess) :
    (setScans p idxs).length = p.length := by
  induction idxs generalizing p with
  | nil => rfl
  | cons i t ih => rw [setScans_cons, ih, List.length_set]

theorem getElem?_setScans (idxs : List Nat) (p : List RowGroupAccess) (j : Nat) :
    (setScans p idxs)[j]? =
      if j ∈ idxs ∧ j < p.length then some .scan else p[j]? := by
  induction idxs generalizing p with
  | nil => simp [setScans]
  | cons i t ih =>
      rw [setScans_cons, ih, List.length_set]
      by_cases hj : j < p.length
      · by_cases hjt : j ∈ t
        · simp [hjt, hj]
        · by_cases hij : i = j
          · simp [hjt, hj, hij, List.getElem?_set]
          · have hji : ¬ j = i := fun hc => hij hc.symm
            simp [hjt, hj, hij, hji, List.getElem?_set]
      · have hnone : p[j]? = none := List.getElem?_eq_none (Nat.le_of_not_lt hj)
        simp [hj, List.getElem?_set, hnone]
        intro hij
        omega

theorem getElem?_setScans_newNone (n : Nat) (idxs : List Nat) (j : Nat) :
    (setScans (newNone n) idxs)[j]? =
      if j < n then (if j ∈ idxs then some RowGroupAccess.scan else some .skip) else none := by
  rw [getElem?_setScans]
  simp only [newNone, List.length_replicate, List.getElem?_replicate]
  by_cases hj : j < n
  · by_cases hjm : j ∈ idxs <;> simp [hj, hjm]
  · simp [hj]

theorem applyRow_find? (acc : List (String × FileScanPlan)) (r : CandidateRow) (fn : String) :
    (applyRow acc r).find? (fun e => decide (e.1 = fn)) =
      if r.file_name = fn then
        match acc.find? (fun e => decide (e.1 = fn)) with
        | some e =>
            some (e.1, ⟨e.2.file_size, e.2.access_plan.set r.row_group.toNat .scan⟩)
        | none =>
            some (r.file_name,
              ⟨r.file_size_bytes, (newNone r.row_group_count.toNat).set r.row_group.toNat .scan⟩)
      else acc.find? (fun e => decide (e.1 = fn)) := by
  unfold applyRow
  by_cases hfn : r.file_name = fn
  · subst hfn
    by_cases hmem : (acc.find? fun e => decide (e.1 = r.file_name)).isSome
    · rw [if_pos hmem]
      obtain ⟨e, he⟩ := Option.isSome_iff_exists.mp hmem
      have hpe : e.1 = r.file_name := by
        have := List.find?_some he
        simpa using this
      rw [find?_map_of_pred _ _ (fun a => by by_cases h : a.1 = r.file_name <;> simp [h]) acc,
        he, if_pos rfl]
      simp [hpe]
    · rw [if_neg hmem]
      have hnone : (acc.find? fun e => decide (e.1 = r.file_name)) = none := by
        cases h : acc.find? fun e => decide (e.1 = r.file_name) with
        | none => rfl
        | some e => rw [h] at hmem; simp at hmem
      rw [hnone, List.find?_append, hnone]
      simp
  · by_cases hmem : (acc.find? fun e => decide (e.1 = r.file_name)).isSome
    · rw [if_pos hmem, if_neg hfn]
      rw [find?_map_of_pred _ _ (fun a => by by_cases h : a.1 = r.file_name <;> simp [h]) acc]
      cases h : acc.find? fun e => decide (e.1 = fn) with
      | none => rfl
      | some e =>
          have hpe : e.1 = fn := by have := List.find?_some h; simpa using this
          have hne : ¬ e.1 = r.file_name := by rw [hpe]; exact fun hc => hfn hc.symm
          simp [hne]
    · rw [if_neg hmem, if_neg hfn, List.find?_append]
      cases h : acc.find? fun e => decide (e.1 = fn) with
      | none => simp [h, hfn]
      | some e => rfl

theorem foldl_applyRow_find? (rows : List CandidateRow)
    (acc : List (String × FileScanPlan)) (fn : String) :
    (rows.foldl applyRow acc).find? (fun e => decide (e.1 = fn)) =
      match acc.find? (fun e => decide (e.1 = fn)) with
      | some e => some (fn, ⟨e.2.file_size, setScans e.2.access_plan (scanIdxs rows fn)⟩)
      | none =>
          (rows.find? fun r => decide (r.file_name = fn)).map fun r0 =>
            (fn, ⟨r0.file_size_bytes,
              setScans (newNone r0.row_group_count.toNat) (scanIdxs rows fn)⟩) := by
  induction rows generalizing acc with
  | nil =>
      cases h : acc.find? fun e => decide (e.1 = fn) with
      | none => rw [List.foldl_nil, h]; rfl
      | some e =>
          have hpe : e.1 = fn := by have := List.find?_some h; simpa using this
          rw [List.foldl_nil, h]
          subst hpe
          rfl
  | cons r rest ih =>
      rw [List.foldl_cons, ih (applyRow acc r), applyRow_find?]
      by_cases hfn : r.file_name = fn
      · rw [if_pos hfn]
        have hidx : scanIdxs (r :: rest) fn = r.row_group.toNat :: scanIdxs rest fn := by
          simp [scanIdxs, List.filter_cons, hfn]
        have hfind : (r :: rest).find? (fun r' => decide (r'.file_name = fn)) = some r :=
          List.find?_cons_of_pos _ (by simp [hfn])
        cases h : acc.find? fun e => decide (e.1 = fn) with
        | some e => simp [h, hidx, setScans_cons]
        | none => simp [h, hidx, hfind, setScans_cons]
      · rw [if_neg hfn]
        have hidx : scanIdxs (r :: rest) fn = scanIdxs rest fn := by
          simp [scanIdxs, List.filter_cons, hfn]
        have hfind : (r :: rest).find? (fun r' => decide (r'.file_name = fn)) =
            rest.find? fun r' => decide (r'.file_name = fn) :=
          List.find?_cons_of_neg _ (by simp [hfn])
        rw [hidx, hfind]

theorem assemblePlans_find? (rows : List CandidateRow) (fn : String) :
    (assemblePlans rows).find? (fun e => decide (e.1 = fn)) =
      (rows.find? fun r => decide (r.file_name = fn)).map fun r0 =>
        (fn, ⟨r0.file_size_bytes,
          setScans (newNone r0.row_group_count.toNat) (scanIdxs rows fn)⟩) := by
  rw [assemblePlans, foldl_applyRow_find?]
  rfl

theorem keys_applyRow (acc : List (String × FileScanPlan)) (r : CandidateRow) :
    (applyRow acc r).map Prod.fst = acc.map Prod.fst ∨
      (applyRow acc r).map Prod.fst = acc.map Prod.fst ++ [r.file_name] ∧
        r.file_name ∉ acc.map Prod.fst := by
  unfold applyRow
  by_cases hmem : (acc.find? fun e => decide (e.1 = r.file_name)).isSome
  · left
    rw [if_pos hmem, List.map_map]
    refine List.map_congr_left fun a _ => ?_
    by_cases h : a.1 = r.file_name <;> simp [h]
  · right
    rw [if_neg hmem]
    constructor
    · simp
    · have hnone : (acc.find? fun e => decide (e.1 = r.file_name)) = none := by
        cases h : acc.find? fun e => decide (e.1 = r.file_name) with
        | none => rfl
        | some e => rw [h] at hmem; simp at hmem
      rw [List.find?_eq_none] at hnone
      intro hc
      obtain ⟨a, ha, hfst⟩ := List.mem_map.mp hc
      exact hnone a ha (by simp [hfst])

theorem nodup_keys_foldl (rows : List CandidateRow)
    (acc : List (String × FileScanPlan)) (h : (acc.map Prod.fst).Nodup) :
    ((rows.foldl applyRow acc).map Prod.fst).Nodup := by
  induction rows generalizing acc with
  | nil => exact h
  | cons r rest ih =>
      rw [List.foldl_cons]
      refine ih _ ?_
      rcases keys_applyRow acc r with hk | ⟨hk, hnin⟩
      · rw [hk]; exact h
      · rw [hk, List.nodup_append]
        refine ⟨h, List.nodup_singleton _, ?_⟩
        intro a ha hb
        rw [List.mem_singleton] at hb
        subst hb
        exact hnin ha

theorem nodup_keys_getFiles (db : DB) (q : RowGroupRow → Bool) :
    ((getFiles db q).map Prod.fst).Nodup := by
  have h1 : ((assemblePlans (findCandidates db q)).map Prod.fst).Nodup :=
    nodup_keys_foldl _ [] (by simp)
  rw [getFiles, planFromRows, List.map_map]
  exact h1

theorem find?_of_mem_nodup_keys (l : List (String × FileScanPlan))
    (h : (l.map Prod.fst).Nodup) (e : String × FileScanPlan) (he : e ∈ l) :
    l.find? (fun x => decide (x.1 = e.1)) = some e := by
  induction l with
  | nil => cases he
  | cons x xs ih =>
      rw [List.map_cons, List.nodup_cons] at h
      rcases List.mem_cons.mp he with rfl | hxs
      · exact List.find?_cons_of_pos _ (by simp)
      · have hne : ¬ x.1 = e.1 := by
          intro hc
          exact h.1 (hc ▸ List.mem_map.mpr ⟨e, hxs, rfl⟩)
        rw [List.find?_cons_of_neg _ (by simp [hne])]
        exact ih h.2 hxs

/-! ## Candidate rows: membership, consistency, bounds -/

theorem mem_findCandidates (db : DB) (q : RowGroupRow → Bool) (c : CandidateRow) :
    c ∈ findCandidates db q ↔
      ∃ r ∈ db.rgs, q r = true ∧ ∃ f ∈ db.files, f.file_id = r.file_id ∧
        c = ⟨f.file_name, f.file_size_bytes, f.row_group_count, r.row_group⟩ := by
  simp only [findCandidates, List.mem_dedup, List.mem_flatMap, List.mem_map,
    List.mem_filter, decide_eq_true_eq]
  constructor
  · rintro ⟨r, ⟨hr, hq⟩, f, ⟨hf, hid⟩, rfl⟩
    exact ⟨r, hr, hq, f, hf, hid, rfl⟩
  · rintro ⟨r, hr, hq, f, hf, hid, rfl⟩
    exact ⟨r, ⟨hr, hq⟩, f, ⟨hf, hid⟩, rfl⟩

theorem mem_scanIdxs (rows : List CandidateRow) (fn : String) (j : Nat) :
    j ∈ scanIdxs rows fn ↔
      ∃ c ∈ rows, c.file_name = fn ∧ c.row_group.toNat = j := by
  simp only [scanIdxs, List.mem_map, List.mem_filter, decide_eq_true_eq]
  constructor
  · rintro ⟨c, ⟨hc, hfn⟩, rfl⟩
    exact ⟨c, hc, hfn, rfl⟩
  · rintro ⟨c, hc, hfn, rfl⟩
    exact ⟨c, ⟨hc, hfn⟩, rfl⟩

theorem file_eq_of_name (db : DB) (hname : (db.files.map fun f => f.file_name).Nodup)
    {f g : FileRow} (hf : f ∈ db.files) (hg : g ∈ db.files)
    (hn : f.file_name = g.file_name) : f = g :=
  List.inj_on_of_nodup_map hname hf hg hn

theorem candidate_consistent (db : DB)
    (hname : (db.files.map fun f => f.file_name).Nodup) (q : RowGroupRow → Bool)
    {c₁ c₂ : CandidateRow} (h₁ : c₁ ∈ findCandidates db q)
    (h₂ : c₂ ∈ findCandidates db q) (hfn : c₁.file_name = c₂.file_name) :
    c₁.row_group_count = c₂.row_group_count ∧ c₁.file_size_bytes = c₂.file_size_bytes := by
  obtain ⟨r₁, hr₁, hq₁, f₁, hf₁, hid₁, rfl⟩ := (mem_findCandidates db q c₁).mp h₁
  obtain ⟨r₂, hr₂, hq₂, f₂, hf₂, hid₂, rfl⟩ := (mem_findCandidates db q c₂).mp h₂
  have : f₁ = f₂ := file_eq_of_name db hname hf₁ hf₂ hfn
  subst this
  exact ⟨rfl, rfl⟩

theorem candidate_bounds (db : DB) (hwf : Wf db) (q : RowGroupRow → Bool)
    {c : CandidateRow} (hc : c ∈ findCandidates db q) :
    0 ≤ c.row_group ∧ c.row_group < c.row_group_count := by
  obtain ⟨r, hr, hq, f, hf, hid, rfl⟩ := (mem_findCandidates db q c).mp hc
  exact hwf.2.2.2 r hr f hf hid

/-- Characterization of one entry of `get_files`'s result: the entry for
`fn` is built from the first candidate row carrying `fn` (its file size
and row-group count), with exactly the candidate row groups for `fn` set
to Scan. -/
theorem getFiles_find? (db : DB) (q : RowGroupRow → Bool) (fn : String) :
    (getFiles db q).find? (fun e => decide (e.1 = fn)) =
      ((findCandidates db q).find? fun r => decide (r.file_name = fn)).map fun r0 =>
        (fn, ⟨asU64 r0.file_size_bytes,
          setScans (newNone r0.row_group_count.toNat) (scanIdxs (findCandidates db q) fn)⟩) := by
  rw [getFiles, planFromRows,
    find?_map_of_pred (fun e => (e.1, (⟨asU64 e.2.file_size, e.2.access_plan⟩ : FileScanPlan)))
      (fun e => decide (e.1 = fn)) (fun a => rfl) _,
    assemblePlans_find?]
  cases h : (findCandidates db q).find? fun r => decide (r.file_name = fn) <;> rfl

/-! ## Properties of the upsert transaction -/

theorem upsertFile_rgs (db : DB) (f : FileStatisticsInsert) :
    (upsertFile db f).1.rgs = db.rgs := by
  unfold upsertFile
  cases db.files.find? fun r => decide (r.file_name = f.file_name) <;> rfl

theorem rowValues_length (file_id : Int) (s : RowGroupStatisticsInsert) :
    (rowValues file_id s).length = 3 + 3 * s.column_statistics.length := by
  rw [rowValues]
  simp only [List.length_append, List.length_cons, List.length_nil]
  have : ∀ cs : List ColumnStatistics,
      (cs.flatMap fun cstat =>
        match cstat.stats with
        | .int mn mx => [SqlValue.int cstat.null_count, .int mn, .int mx]
        | .string mn mx => [.int cstat.null_count, .text mn, .text mx]).length =
      3 * cs.length := by
    intro cs
    induction cs with
    | nil => rfl
    | cons cstat t ih =>
        rw [List.flatMap_cons, List.length_append, ih]
        cases cstat.stats <;> (simp only [List.length_cons, List.length_nil, List.length_cons]; ring)
  rw [this]

/-- Unfolding of a successful `add_row` into its three persisted effects. -/
theorem addRow_some (schema : List SchemaField) (db : DB) (f : FileStatisticsInsert)
    (rgss : List RowGroupStatisticsInsert) (db' : DB)
    (h : addRow schema db f rgss = some db') :
    db'.files = (upsertFile db f).1.files ∧ db'.next_id = (upsertFile db f).1.next_id ∧
      db'.rgs = ((upsertFile db f).1.rgs.filter fun r => decide (r.file_id ≠ (upsertFile db f).2)) ++
        rgss.map (toRGRow (upsertFile db f).2) := by
  rw [addRow] at h
  cases hcols : statsTableColumns schema with
  | none => rw [hcols] at h; cases h
  | some cols =>
      rw [hcols] at h
      simp only at h
      by_cases harity :
          (rgss.all fun s =>
            decide ((rowValues (upsertFile db f).2 s).length = (insertColumns schema).length)) = true
      · rw [if_pos harity] at h
        cases h
        exact ⟨rfl, rfl, rfl⟩
      · rw [if_neg harity] at h
        cases h

/-- A successful `add_row` keeps the arity condition satisfiable: the
bound value count is independent of the `file_id`. -/
theorem addRow_arity (schema : List SchemaField) (db : DB) (f : FileStatisticsInsert)
    (rgss : List RowGroupStatisticsInsert) (db' : DB)
    (h : addRow schema db f rgss = some db') (fid : Int) :
    (rgss.all fun s =>
      decide ((rowValues fid s).length = (insertColumns schema).length)) = true := by
  rw [addRow] at h
  cases hcols : statsTableColumns schema with
  | none => rw [hcols] at h; cases h
  | some cols =>
      rw [hcols] at h
      simp only at h
      by_cases harity :
          (rgss.all fun s =>
            decide ((rowValues (upsertFile db f).2 s).length = (insertColumns schema).length)) = true
      · rw [List.all_eq_true] at harity ⊢
        intro s hs
        have := harity s hs
        rw [decide_eq_true_eq] at this ⊢
        rw [rowValues_length] at this ⊢
        exact this
      · rw [if_neg harity] at h
        cases h

theorem addRow_cols (schema : List SchemaField) (db : DB) (f : FileStatisticsInsert)
    (rgss : List RowGroupStatisticsInsert) (db' : DB)
    (h : addRow schema db f rgss = some db') :
    (statsTableColumns schema).isSome := by
  rw [addRow] at h
  cases hcols : statsTableColumns schema with
  | none => rw [hcols] at h; cases h
  | some cols => rfl

/-- An upsert only reads `files` and `next_id`; its result is determined
by them, and it passes `rgs` through. -/
theorem upsertFile_congr (db db' : DB) (f : FileStatisticsInsert)
    (hfiles : db'.files = db.files) (hnext : db'.next_id = db.next_id) :
    (upsertFile db' f).1.files = (upsertFile db f).1.files ∧
      (upsertFile db' f).1.next_id = (upsertFile db f).1.next_id ∧
      (upsertFile db' f).2 = (upsertFile db f).2 := by
  unfold upsertFile
  rw [hfiles, hnext]
  cases db.files.find? fun r => decide (r.file_name = f.file_name) <;>
    exact ⟨rfl, rfl, rfl⟩

/-- Explicit equation for the `ON CONFLICT DO UPDATE` branch. -/
theorem upsertFile_eq_update (db : DB) (f : FileStatisticsInsert) (r : FileRow)
    (hfind : (db.files.find? fun x => decide (x.file_name = f.file_name)) = some r) :
    upsertFile db f =
      ({ db with files := db.files.map fun r' =>
          if r'.file_name = f.file_name then applyUpdate f r' else r' }, r.file_id) := by
  unfold upsertFile
  rw [hfind]

/-- Explicit equation for the plain-insert branch. -/
theorem upsertFile_eq_insert (db : DB) (f : FileStatisticsInsert)
    (hfind : (db.files.find? fun x => decide (x.file_name = f.file_name)) = none) :
    upsertFile db f =
      ({ db with
          files := db.files ++
            [⟨db.next_id, f.file_name, f.file_size_bytes, f.row_group_count, f.row_count⟩]
          next_id := db.next_id + 1 }, db.next_id) := by
  unfold upsertFile
  rw [hfind]

/-- The conflict-update map preserves the `file_name` key. -/
theorem updKey (f : FileStatisticsInsert) (t : String) : ∀ a : FileRow,
    decide ((if a.file_name = f.file_name then applyUpdate f a else a).file_name = t) =
      decide (a.file_name = t) := by
  intro a
  by_cases h : a.file_name = f.file_name <;> simp [h, applyUpdate]

/-- Upserting into a state that already went through an upsert for the
same file name finds that record: same `file_id`, identical `files`
table when the payload is identical. -/
theorem upsertFile_idem (db : DB) (f : FileStatisticsInsert) :
    upsertFile (upsertFile db f).1 f = ((upsertFile db f).1, (upsertFile db f).2) := by
  cases hfind : db.files.find? fun x => decide (x.file_name = f.file_name) with
  | some r =>
      have hrn : r.file_name = f.file_name := by
        have := List.find?_some hfind; simpa using this
      have hfind2 :
          ((upsertFile db f).1.files.find? fun x => decide (x.file_name = f.file_name)) =
            some (applyUpdate f r) := by
        rw [upsertFile_eq_update db f r hfind]
        show ((db.files.map fun r' =>
            if r'.file_name = f.file_name then applyUpdate f r' else r').find?
          fun x => decide (x.file_name = f.file_name)) = some (applyUpdate f r)
        rw [find?_map_of_pred _ _ (updKey f f.file_name) db.files, hfind]
        simp [hrn]
      have hmap :
          ((db.files.map fun r' =>
              if r'.file_name = f.file_name then applyUpdate f r' else r').map fun r' =>
            if r'.file_name = f.file_name then applyUpdate f r' else r') =
          db.files.map fun r' =>
            if r'.file_name = f.file_name then applyUpdate f r' else r' := by
        rw [List.map_map]
        refine List.map_congr_left fun a _ => ?_
        by_cases h : a.file_name = f.file_name <;> simp [h, applyUpdate]
      rw [upsertFile_eq_update _ f (applyUpdate f r) hfind2,
        upsertFile_eq_update db f r hfind]
      simp only [applyUpdate] at hmap ⊢
      rw [hmap]
  | none =>
      have hnotin : ∀ a ∈ db.files, ¬ a.file_name = f.file_name := by
        intro a ha
        have := List.find?_eq_none.mp hfind a ha
        simpa using this
      have hfind2 :
          ((upsertFile db f).1.files.find? fun x => decide (x.file_name = f.file_name)) =
            some ⟨db.next_id, f.file_name, f.file_size_bytes, f.row_group_count, f.row_count⟩ := by
        rw [upsertFile_eq_insert db f hfind]
        show ((db.files ++
            [(⟨db.next_id, f.file_name, f.file_size_bytes, f.row_group_count,
              f.row_count⟩ : FileRow)]).find?
          fun x : FileRow => decide (x.file_name = f.file_name)) = _
        rw [List.find?_append, hfind, Option.none_or]
        exact List.find?_cons_of_pos _ (by simp)
      have hmapid :
          ((db.files ++
              [(⟨db.next_id, f.file_name, f.file_size_bytes, f.row_group_count,
                f.row_count⟩ : FileRow)]).map fun r' =>
            if r'.file_name = f.file_name then applyUpdate f r' else r') =
          db.files ++
            [⟨db.next_id, f.file_name, f.file_size_bytes, f.row_group_count, f.row_count⟩] := by
        rw [List.map_append]
        congr 1
        · refine (List.map_congr_left fun a ha => ?_).trans (List.map_id db.files)
          rw [if_neg (hnotin a ha)]
          rfl
        · simp [applyUpdate]
      rw [upsertFile_eq_update _ f _ hfind2, upsertFile_eq_insert db f hfind]
      simp only [applyUpdate] at hmapid ⊢
      rw [hmapid]

/-- Re-upserting any payload with the same `file_name` returns the same
`file_id`. -/
theorem upsertFile_fid_stable (db : DB) (f f₂ : FileStatisticsInsert)
    (hn : f₂.file_name = f.file_name) :
    (upsertFile (upsertFile db f).1 f₂).2 = (upsertFile db f).2 := by
  cases hfind : db.files.find? fun x => decide (x.file_name = f.file_name) with
  | some r =>
      have hrn : r.file_name = f.file_name := by
        have := List.find?_some hfind; simpa using this
      have hfind2 :
          ((upsertFile db f).1.files.find? fun x => decide (x.file_name = f₂.file_name)) =
            some (applyUpdate f r) := by
        rw [hn, upsertFile_eq_update db f r hfind]
        show ((db.files.map fun r' =>
            if r'.file_name = f.file_name then applyUpdate f r' else r').find?
          fun x => decide (x.file_name = f.file_name)) = some (applyUpdate f r)
        rw [find?_map_of_pred _ _ (updKey f f.file_name) db.files, hfind]
        simp [hrn]
      rw [upsertFile_eq_update _ f₂ _ hfind2, upsertFile_eq_update db f r hfind]
      rfl
  | none =>
      have hfind2 :
          ((upsertFile db f).1.files.find? fun x => decide (x.file_name = f₂.file_name)) =
            some ⟨db.next_id, f.file_name, f.file_size_bytes, f.row_group_count, f.row_count⟩ := by
        rw [hn, upsertFile_eq_insert db f hfind]
        show ((db.files ++
            [(⟨db.next_id, f.file_name, f.file_size_bytes, f.row_group_count,
              f.row_count⟩ : FileRow)]).find?
          fun x : FileRow => decide (x.file_name = f.file_name)) = _
        rw [List.find?_append, hfind, Option.none_or]
        exact List.find?_cons_of_pos _ (by simp)
      rw [upsertFile_eq_update _ f₂ _ hfind2, upsertFile_eq_insert db f hfind]

/-! ## Well-formedness is maintained by ingestion -/

theorem addFile_ok (schema : List SchemaField) (db : DB) (p : PathArg)
    (pfE : Except IoError ParquetFile) (db' : DB)
    (h : addFile schema db p pfE = .ok db') :
    ∃ fname pf, pathString p = some fname ∧ pfE = .ok pf ∧
      addRow schema db ⟨fname, pf.fileSize, (pf.numRowGroups : Int), pf.numRows⟩
        (extractRowGroupStatistics schema pf) = some db' := by
  unfold addFile at h
  split at h
  · cases h
  · split at h
    · cases h
    · split at h
      · cases h
      · split at h
        · rename_i xa os0 hp xb fname hs xc pf xd db2 har
          injection h with h2
          subst h2
          exact ⟨fname, pf, by simp [pathString, hp, hs], rfl, har⟩
        · cases h

theorem extract_bounds (schema : List SchemaField) (pf : ParquetFile) :
    ∀ s ∈ extractRowGroupStatistics schema pf,
      0 ≤ s.row_group ∧ s.row_group < (pf.numRowGroups : Int) := by
  intro s hs
  rw [extractRowGroupStatistics] at hs
  obtain ⟨rg, hrg, rfl⟩ := List.mem_map.mp hs
  rw [List.mem_range] at hrg
  constructor
  · show (0 : Int) ≤ (rg : Int)
    omega
  · show (rg : Int) < (pf.numRowGroups : Int)
    omega

theorem wf_addRow (schema : List SchemaField) (db : DB) (f : FileStatisticsInsert)
    (rgss : List RowGroupStatisticsInsert) (db' : DB)
    (h : addRow schema db f rgss = some db')
    (hb : ∀ s ∈ rgss, 0 ≤ s.row_group ∧ s.row_group < f.row_group_count)
    (hwf : Wf db) : Wf db' := by
  obtain ⟨hid, hname, hlt, hrg⟩ := hwf
  obtain ⟨hfiles, hnext, hrgs⟩ := addRow_some schema db f rgss db' h
  cases hfind : db.files.find? fun x => decide (x.file_name = f.file_name) with
  | some r =>
      simp only [upsertFile_eq_update db f r hfind] at hfiles hnext hrgs
      have hrmem : r ∈ db.files := List.mem_of_find?_eq_some hfind
      have hrn : r.file_name = f.file_name := by
        have := List.find?_some hfind; simpa using this
      have hidpres :
          ((db.files.map fun r' =>
            if r'.file_name = f.file_name then applyUpdate f r' else r').map fun x =>
              x.file_id) = db.files.map fun x => x.file_id := by
        rw [List.map_map]
        refine List.map_congr_left fun a _ => ?_
        by_cases hc : a.file_name = f.file_name <;> simp [hc, applyUpdate]
      have hnamepres :
          ((db.files.map fun r' =>
            if r'.file_name = f.file_name then applyUpdate f r' else r').map fun x =>
              x.file_name) = db.files.map fun x => x.file_name := by
        rw [List.map_map]
        refine List.map_congr_left fun a _ => ?_
        by_cases hc : a.file_name = f.file_name <;> simp [hc, applyUpdate]
      refine ⟨?_, ?_, ?_, ?_⟩
      · rw [hfiles, hidpres]; exact hid
      · rw [hfiles, hnamepres]; exact hname
      · intro f' hf'
        rw [hfiles] at hf'
        obtain ⟨a, ha, rfl⟩ := List.mem_map.mp hf'
        rw [hnext]
        have hidc : (if a.file_name = f.file_name then applyUpdate f a else a).file_id =
            a.file_id := by
          by_cases hc : a.file_name = f.file_name <;> simp [hc, applyUpdate]
        rw [hidc]
        exact hlt a ha
      · intro rrow hrrow f' hf' hfid
        rw [hrgs] at hrrow
        rw [hfiles] at hf'
        obtain ⟨a, ha, rfl⟩ := List.mem_map.mp hf'
        rcases List.mem_append.mp hrrow with hold | hnew
        · have hne : ¬ rrow.file_id = r.file_id := by
            have := (List.mem_filter.mp hold).2; simpa using this
          have holdmem := (List.mem_filter.mp hold).1
          by_cases hc : a.file_name = f.file_name
          · have har : a = r := file_eq_of_name db hname ha hrmem (by rw [hc, hrn])
            have hida : a.file_id = rrow.file_id := by
              simpa [hc, applyUpdate] using hfid
            exact absurd (har ▸ hida).symm hne
          · rw [if_neg hc] at hfid ⊢
            exact hrg rrow holdmem a ha hfid
        · obtain ⟨s, hsmem, rfl⟩ := List.mem_map.mp hnew
          by_cases hc : a.file_name = f.file_name
          · rw [if_pos hc]
            show 0 ≤ (toRGRow r.file_id s).row_group ∧
              (toRGRow r.file_id s).row_group < (applyUpdate f a).row_group_count
            simp only [toRGRow, applyUpdate]
            exact hb s hsmem
          · have hida : a.file_id = r.file_id := by
              simpa [hc, toRGRow] using hfid
            have har : a = r := List.inj_on_of_nodup_map hid ha hrmem hida
            rw [har, hrn] at hc
            exact absurd rfl hc
  | none =>
      simp only [upsertFile_eq_insert db f hfind] at hfiles hnext hrgs
      have hnotin : ∀ a ∈ db.files, ¬ a.file_name = f.file_name := by
        intro a ha
        have := List.find?_eq_none.mp hfind a ha
        simpa using this
      refine ⟨?_, ?_, ?_, ?_⟩
      · rw [hfiles, List.map_append, List.nodup_append]
        refine ⟨hid, by simp, ?_⟩
        intro x hx hx2
        simp only [List.map_cons, List.map_nil, List.mem_singleton] at hx2
        obtain ⟨a, ha, rfl⟩ := List.mem_map.mp hx
        have := hlt a ha
        rw [hx2] at this
        exact absurd this (lt_irrefl _)
      · rw [hfiles, List.map_append, List.nodup_append]
        refine ⟨hname, by simp, ?_⟩
        intro x hx hx2
        simp only [List.map_cons, List.map_nil, List.mem_singleton] at hx2
        obtain ⟨a, ha, rfl⟩ := List.mem_map.mp hx
        exact hnotin a ha hx2
      · intro f' hf'
        rw [hfiles] at hf'
        rw [hnext]
        rcases List.mem_append.mp hf' with hfa | hfb
        · exact lt_trans (hlt f' hfa) (lt_add_one _)
        · rw [List.mem_singleton] at hfb
          rw [hfb]
          exact lt_add_one _
      · intro rrow hrrow f' hf' hfid
        rw [hrgs] at hrrow
        rw [hfiles] at hf'
        rcases List.mem_append.mp hrrow with hold | hnew
        · have hne : ¬ rrow.file_id = db.next_id := by
            have := (List.mem_filter.mp hold).2; simpa using this
          have holdmem := (List.mem_filter.mp hold).1
          rcases List.mem_append.mp hf' with hfa | hfb
          · exact hrg rrow holdmem f' hfa hfid
          · rw [List.mem_singleton] at hfb
            rw [hfb] at hfid
            exact absurd hfid.symm (by simpa using hne)
        · obtain ⟨s, hsmem, rfl⟩ := List.mem_map.mp hnew
          rcases List.mem_append.mp hf' with hfa | hfb
          · have : f'.file_id = db.next_id := by simpa [toRGRow] using hfid
            have := hlt f' hfa
            rw [‹f'.file_id = db.next_id›] at this
            exact absurd this (lt_irrefl _)
          · rw [List.mem_singleton] at hfb
            rw [hfb]
            show 0 ≤ (toRGRow db.next_id s).row_group ∧
              (toRGRow db.next_id s).row_group <
                (⟨db.next_id, f.file_name, f.file_size_bytes, f.row_group_count,
                  f.row_count⟩ : FileRow).row_group_count
            simp only [toRGRow]
            exact hb s hsmem

theorem wf_addFile (schema : List SchemaField) (db : DB) (p : PathArg)
    (pfE : Except IoError ParquetFile) (db' : DB)
    (h : addFile schema db p pfE = .ok db') (hwf : Wf db) : Wf db' := by
  obtain ⟨fname, pf, hpath, hpf, har⟩ := addFile_ok schema db p pfE db' h
  refine wf_addRow schema db _ _ db' har ?_ hwf
  intro s hs
  exact extract_bounds schema pf s hs

theorem wf_reachable (schema : List SchemaField) (db : DB)
    (h : Reachable schema db) : Wf db := by
  induction h with
  | init => decide
  | step db p pfE db' hr hadd ih => exact wf_addFile schema db p pfE db' hadd ih

/-! ## Replacement of row-group rows -/

theorem filter_ne_append_map (l : List RowGroupRow)
    (rgss : List RowGroupStatisticsInsert) (fid : Int) :
    (((l.filter fun r => decide (r.file_id ≠ fid)) ++ rgss.map (toRGRow fid)).filter
      fun r => decide (r.file_id ≠ fid)) = l.filter fun r => decide (r.file_id ≠ fid) := by
  rw [List.filter_append]
  have h1 : ((l.filter fun r => decide (r.file_id ≠ fid)).filter
      fun r => decide (r.file_id ≠ fid)) = l.filter fun r => decide (r.file_id ≠ fid) := by
    rw [List.filter_filter]
    exact List.filter_congr fun a _ => by by_cases h : a.file_id = fid <;> simp [h]
  have h2 : ((rgss.map (toRGRow fid)).filter fun r => decide (r.file_id ≠ fid)) = [] := by
    rw [List.filter_eq_nil_iff]
    intro a ha
    obtain ⟨s, hsx, rfl⟩ := List.mem_map.mp ha
    simp [toRGRow]
  rw [h1, h2, List.append_nil]

theorem filter_eq_append_map (l : List RowGroupRow)
    (rgss : List RowGroupStatisticsInsert) (fid : Int) :
    (((l.filter fun r => decide (r.file_id ≠ fid)) ++ rgss.map (toRGRow fid)).filter
      fun r => decide (r.file_id = fid)) = rgss.map (toRGRow fid) := by
  rw [List.filter_append]
  have h1 : ((l.filter fun r => decide (r.file_id ≠ fid)).filter
      fun r => decide (r.file_id = fid)) = [] := by
    rw [List.filter_eq_nil_iff]
    intro a ha
    have := (List.mem_filter.mp ha).2
    simp only [decide_eq_true_eq] at this
    simp [this]
  have h2 : ((rgss.map (toRGRow fid)).filter fun r => decide (r.file_id = fid)) =
      rgss.map (toRGRow fid) := by
    rw [List.filter_eq_self]
    intro a ha
    obtain ⟨s, hsx, rfl⟩ := List.mem_map.mp ha
    simp [toRGRow]
  rw [h1, h2, List.nil_append]

/-- The file record visible after an upsert. -/
theorem upsertFile_mem_record (db : DB) (f : FileStatisticsInsert) :
    ∃ rec ∈ (upsertFile db f).1.files,
      rec.file_name = f.file_name ∧ rec.file_id = (upsertFile db f).2 ∧
      rec.file_size_bytes = f.file_size_bytes ∧
      rec.row_group_count = f.row_group_count := by
  cases hfind : db.files.find? fun x => decide (x.file_name = f.file_name) with
  | some r =>
      rw [upsertFile_eq_update db f r hfind]
      have hrmem := List.mem_of_find?_eq_some hfind
      have hrn : r.file_name = f.file_name := by
        have := List.find?_some hfind; simpa using this
      refine ⟨applyUpdate f r, ?_, hrn, rfl, rfl, rfl⟩
      show applyUpdate f r ∈ db.files.map fun r' =>
        if r'.file_name = f.file_name then applyUpdate f r' else r'
      exact List.mem_map.mpr ⟨r, hrmem, by rw [if_pos hrn]⟩
  | none =>
      rw [upsertFile_eq_insert db f hfind]
      refine ⟨⟨db.next_id, f.file_name, f.file_size_bytes, f.row_group_count, f.row_count⟩,
        ?_, rfl, rfl, rfl, rfl⟩
      show _ ∈ db.files ++
        [(⟨db.next_id, f.file_name, f.file_size_bytes, f.row_group_count,
          f.row_count⟩ : FileRow)]
      exact List.mem_append_right _ (List.mem_singleton_self _)

/-! ## Claim C3 -/

/-- C3: Idempotence of upsert.  Calling `add_row` twice with the same
`FileStatisticsInsert` and the same `RowGroupStatisticsInsert` sequence
leaves the persisted `file_statistics` and `row_group_statistics` state
identical to calling it once, and resolves to the same `file_id`. -/
theorem add_row_idempotent (schema : List SchemaField) (db db' : DB)
    (f : FileStatisticsInsert) (rgss : List RowGroupStatisticsInsert)
    (h : addRow schema db f rgss = some db') :
    ∃ db2, addRow schema db' f rgss = some db2 ∧
      db2.files = db'.files ∧ db2.rgs = db'.rgs ∧
      (upsertFile db' f).2 = (upsertFile db f).2 := by
  obtain ⟨hfiles, hnext, hrgs⟩ := addRow_some schema db f rgss db' h
  obtain ⟨cols, hcols⟩ := Option.isSome_iff_exists.mp (addRow_cols schema db f rgss db' h)
  have hcongr := upsertFile_congr (upsertFile db f).1 db' f hfiles hnext
  have hidem := upsertFile_idem db f
  have hfid : (upsertFile db' f).2 = (upsertFile db f).2 := by
    rw [hcongr.2.2, hidem]
  have harity := addRow_arity schema db f rgss db' h (upsertFile db' f).2
  have hstep : addRow schema db' f rgss = some
      { files := (upsertFile db' f).1.files
        rgs := ((upsertFile db' f).1.rgs.filter fun r =>
            decide (r.file_id ≠ (upsertFile db' f).2)) ++
          rgss.map (toRGRow (upsertFile db' f).2)
        next_id := (upsertFile db' f).1.next_id } := by
    unfold addRow
    rw [hcols]
    simp only [harity, if_true]
  refine ⟨_, hstep, ?_, ?_, hfid⟩
  · show (upsertFile db' f).1.files = db'.files
    rw [hcongr.1, hidem, hfiles]
  · show ((upsertFile db' f).1.rgs.filter fun r =>
        decide (r.file_id ≠ (upsertFile db' f).2)) ++
          rgss.map (toRGRow (upsertFile db' f).2) = db'.rgs
    rw [upsertFile_rgs db' f, hfid, hrgs]
    rw [filter_ne_append_map]

/-! ## Claim C4 -/

/-- C4: Update semantics.  Re-ingesting a file payload with the same
`file_name` resolves to the same `file_id`, and after the second
`add_row` the `row_group_statistics` rows for that `file_id` are exactly
the newly inserted ones: no row from the previous version remains. -/
theorem update_replaces_row_groups (schema : List SchemaField) (db db1 db2 : DB)
    (f1 f2 : FileStatisticsInsert) (rgss1 rgss2 : List RowGroupStatisticsInsert)
    (hname : f2.file_name = f1.file_name)
    (h1 : addRow schema db f1 rgss1 = some db1)
    (h2 : addRow schema db1 f2 rgss2 = some db2) :
    (upsertFile db1 f2).2 = (upsertFile db f1).2 ∧
    db2.rgs.filter (fun r => decide (r.file_id = (upsertFile db1 f2).2)) =
      rgss2.map (toRGRow (upsertFile db1 f2).2) := by
  obtain ⟨hfiles1, hnext1, hrgs1⟩ := addRow_some schema db f1 rgss1 db1 h1
  obtain ⟨hfiles2, hnext2, hrgs2⟩ := addRow_some schema db1 f2 rgss2 db2 h2
  have hcongr := upsertFile_congr (upsertFile db f1).1 db1 f2 hfiles1 hnext1
  have hstable := upsertFile_fid_stable db f1 f2 hname
  constructor
  · rw [hcongr.2.2, hstable]
  · rw [hrgs2, upsertFile_rgs db1 f2]
    exact filter_eq_append_map db1.rgs rgss2 (upsertFile db1 f2).2

/-! ## Concrete fixtures used by witnesses and counterexamples -/

/-- Index schema with a single Int64 column. -/
def schemaA : List SchemaField := [⟨"a", .int64, true⟩]

/-- Statistics arrays of a small file: per-row-group min `1 + rg`,
max `100 + rg`, zero nulls. -/
def arraysA : ColumnArrays :=
  ⟨fun rg => 1 + rg, fun rg => 100 + rg, fun _ => "", fun _ => "", fun _ => 0⟩

/-- A two-row-group parquet file fixture. -/
def pfA : ParquetFile := ⟨2, fun _ => 10, 1234, 20, fun _ => arraysA⟩

/-- A path with the UTF-8 file name `f1.parquet`. -/
def pathA : PathArg := ⟨some ⟨some "f1.parquet"⟩⟩

/-- Projection naming the state after a successful `add_file` in closed
statements. -/
def okDB (o : RustOutcome DFError DB) (fallback : DB) : DB :=
  match o with
  | .ok d => d
  | _ => fallback

/-- The index state after ingesting `pfA` into a fresh database. -/
def dbA : DB := okDB (addFile schemaA emptyDB pathA (.ok pfA)) emptyDB

/-- The file-level payload `add_file` derives from `pfA`. -/
def finsA : FileStatisticsInsert := ⟨"f1.parquet", 1234, 2, 20⟩

/-- The row-group payloads `add_file` derives from `pfA`. -/
def rgssA : List RowGroupStatisticsInsert := extractRowGroupStatistics schemaA pfA

/-- The state after one direct `add_row` of the `pfA` payloads. -/
def dbB : DB := (addRow schemaA emptyDB finsA rgssA).getD emptyDB

/-- Schema with an unsupported (Float32) field next to a supported one. -/
def schemaF : List SchemaField := [⟨"f", .float32, true⟩, ⟨"a", .int64, true⟩]

/-! ## Claim C5 -/

/-- C5: Row-count placeholder rewrite.  On a leaf column named
`a_row_count` the transform of `get_files` lines 121-129 produces a
column named `a` — `trim_end_matches("_row_count")` strips the suffix —
not a reference to the shared `row_count` column as the code's own
comment (line 120) and the spec describe. -/
theorem row_count_rewrite_strips_suffix :
    rewriteRowCount (.column "a_row_count" 0) = .column "a" 0 ∧
      "a" ≠ "row_count" := by
  constructor
  · decide
  · decide

/-! ## Claim C9 -/

/-- C9: Store-error handling in `get_files`.  When the statistics query
fails, the code `.unwrap()`s the Err (line 167): the call terminates
abnormally (panic) instead of returning the `StoreError` to the
caller. -/
theorem store_error_causes_panic :
    getFilesFromFetch (.error (.sqlx "connection closed")) = RustOutcome.panic ∧
      getFilesFromFetch (.error (.sqlx "connection closed")) ≠
        .error (.sqlx "connection closed") := by
  constructor
  · rfl
  · intro h
    cases h

/-! ## Claim C6 -/

/-- C6 counterexample: a UInt64 schema field is not extracted at all —
the dispatch of `add_file` (lines 232-351) has no UInt64 arm, so the
field falls into the ignore arm and yields no statistics, in particular
no `Int(i64, i64)` min/max. -/
theorem uint64_extraction_skipped :
    extractColumnStats DataType.uint64 arraysA 0 = none := by decide

/-- Source value range of the integer types the extractor widens
(every dispatch arm of `add_file` that produces `Int` statistics). -/
def intRange (dt : DataType) : Option (Int × Int) :=
  match dt with
  | .int8 => some (-(2 ^ 7), 2 ^ 7 - 1)
  | .uint8 => some (0, 2 ^ 8 - 1)
  | .int16 => some (-(2 ^ 15), 2 ^ 15 - 1)
  | .uint16 => some (0, 2 ^ 16 - 1)
  | .int32 => some (-(2 ^ 31), 2 ^ 31 - 1)
  | .uint32 => some (0, 2 ^ 32 - 1)
  | .int64 => some (-(2 ^ 63), 2 ^ 63 - 1)
  | _ => none

theorem asI64_eq_self (v : Int) (h1 : -(2 ^ 63) ≤ v) (h2 : v < 2 ^ 63) :
    asI64 v = v := by
  rw [asI64]
  have : (v + 2 ^ 63) % 2 ^ 64 = v + 2 ^ 63 :=
    Int.emod_eq_of_lt (by omega) (by omega)
  omega

/-- C6 (amended): for every schema field typed as a signed integer of
width at most 64 bits or an unsigned integer of width at most 32 bits
(the types with an `Int`-producing dispatch arm), extraction produces
`Int(i64, i64)` min/max statistics equal to the raw numeric values —
widening is plain numeric conversion with no wraparound — together with
the widened null count.  UInt64 has no arm (see the counterexample). -/
theorem integer_widening_supported (dt : DataType) (lo hi : Int)
    (hdt : intRange dt = some (lo, hi)) (a : ColumnArrays) (rg : Nat)
    (hmin1 : lo ≤ a.minInt rg) (hmin2 : a.minInt rg ≤ hi)
    (hmax1 : lo ≤ a.maxInt rg) (hmax2 : a.maxInt rg ≤ hi)
    (hnc1 : 0 ≤ a.nullCount rg) (hnc2 : a.nullCount rg < 2 ^ 63) :
    extractColumnStats dt a rg =
      some ⟨a.nullCount rg, .int (a.minInt rg) (a.maxInt rg)⟩ := by
  have hncw : asI64 (a.nullCount rg) = a.nullCount rg :=
    asI64_eq_self _ (by omega) hnc2
  cases dt
  case int8 =>
    injection Option.some.inj hdt with h1 h2
    subst h1; subst h2
    simp only [extractColumnStats]
    rw [hncw, asI64_eq_self (a.minInt rg) (by omega) (by omega),
      asI64_eq_self (a.maxInt rg) (by omega) (by omega)]
  case uint8 =>
    injection Option.some.inj hdt with h1 h2
    subst h1; subst h2
    simp only [extractColumnStats]
    rw [hncw, asI64_eq_self (a.minInt rg) (by omega) (by omega),
      asI64_eq_self (a.maxInt rg) (by omega) (by omega)]
  case int16 =>
    injection Option.some.inj hdt with h1 h2
    subst h1; subst h2
    simp only [extractColumnStats]
    rw [hncw, asI64_eq_self (a.minInt rg) (by omega) (by omega),
      asI64_eq_self (a.maxInt rg) (by omega) (by omega)]
  case uint16 =>
    injection Option.some.inj hdt with h1 h2
    subst h1; subst h2
    simp only [extractColumnStats]
    rw [hncw, asI64_eq_self (a.minInt rg) (by omega) (by omega),
      asI64_eq_self (a.maxInt rg) (by omega) (by omega)]
  case int32 =>
    injection Option.some.inj hdt with h1 h2
    subst h1; subst h2
    simp only [extractColumnStats]
    rw [hncw, asI64_eq_self (a.minInt rg) (by omega) (by omega),
      asI64_eq_self (a.maxInt rg) (by omega) (by omega)]
  case uint32 =>
    injection Option.some.inj hdt with h1 h2
    subst h1; subst h2
    simp only [extractColumnStats]
    rw [hncw, asI64_eq_self (a.minInt rg) (by omega) (by omega),
      asI64_eq_self (a.maxInt rg) (by omega) (by omega)]
  case int64 =>
    simp only [extractColumnStats]
    rw [hncw]
  all_goals cases hdt

/-- C6 witness: the amended widening theorem applied at a concrete
UInt8 field over the fixture arrays. -/
theorem integer_widening_supported_witness :
    extractColumnStats DataType.uint8 arraysA 0 =
      some ⟨arraysA.nullCount 0, .int (arraysA.minInt 0) (arraysA.maxInt 0)⟩ :=
  integer_widening_supported DataType.uint8 0 (2 ^ 8 - 1) rfl arraysA 0
    (by decide) (by decide) (by decide) (by decide) (by decide) (by decide)

/-! ## Claim C7 -/

/-- C7: an unsupported (Float32) schema field is not narrowed away: the
`row_group_statistics` DDL and `add_row`'s insert column list both carry
its `_min`/`_max`/`_null_count` columns, and ingesting a file panics —
`values_panic` (line 451) sees fewer bound values than columns — so the
supported columns are not persisted either. -/
theorem unsupported_type_breaks_ingestion :
    addFile schemaF emptyDB pathA (.ok pfA) = RustOutcome.panic ∧
    "f_min" ∈ insertColumns schemaF ∧
    "f_min" ∈ ((statsTableColumns schemaF).getD []).map Prod.fst := by
  refine ⟨by decide, by decide, by decide⟩

/-! ## Claim C10 -/

/-- C10: a path whose final component is absent, or whose file name is
not valid UTF-8, makes `add_file` fail with the corresponding error
before the file is consulted (the same error results for every possible
file-open outcome `pfE`), producing no new state. -/
theorem add_file_invalid_path_errors (schema : List SchemaField) (db : DB)
    (p : PathArg) (pfE : Except IoError ParquetFile)
    (h : p.fileName = none ∨ ∃ os, p.fileName = some os ∧ os.toStr = none) :
    addFile schema db p pfE = .error .noFilename ∨
      addFile schema db p pfE = .error .invalidFilename := by
  rcases h with hn | ⟨os, hos, hstr⟩
  · left
    unfold addFile
    rw [hn]
  · right
    unfold addFile
    rw [hos]
    dsimp only
    rw [hstr]

/-- C10 witness: both bad-path shapes at concrete inputs. -/
theorem add_file_invalid_path_errors_witness :
    (addFile schemaA emptyDB ⟨none⟩ (.ok pfA) = .error .noFilename ∨
      addFile schemaA emptyDB ⟨none⟩ (.ok pfA) = .error .invalidFilename) ∧
    (addFile schemaA emptyDB ⟨some ⟨none⟩⟩ (.ok pfA) = .error .noFilename ∨
      addFile schemaA emptyDB ⟨some ⟨none⟩⟩ (.ok pfA) = .error .invalidFilename) :=
  ⟨add_file_invalid_path_errors schemaA emptyDB ⟨none⟩ (.ok pfA) (Or.inl rfl),
    add_file_invalid_path_errors schemaA emptyDB ⟨some ⟨none⟩⟩ (.ok pfA)
      (Or.inr ⟨⟨none⟩, rfl, rfl⟩)⟩

/-! ## Claim C1 -/

/-- C1: Soundness of pruning.  In any state reachable through
`add_file`, for every compiled pruning predicate `q` (the delegated
DataFusion `PruningPredicate` composed with the SQL compilation,
modelled per the spec's scope as an opaque total predicate over one
stored wide statistics row) and every stored (file, row-group) pair
whose statistics row satisfies `q`, that pair appears in the result of
`get_files` with a Scan decision: the pipeline never excludes a
row-group whose stored statistics satisfy the predicate. -/
theorem pruning_soundness (schema : List SchemaField) (db : DB)
    (hr : Reachable schema db) (q : RowGroupRow → Bool) (f : FileRow)
    (r : RowGroupRow) (hf : f ∈ db.files) (hrg : r ∈ db.rgs)
    (hid : r.file_id = f.file_id) (hq : q r = true) :
    ∃ plan : FileScanPlan,
      (getFiles db q).find? (fun e => decide (e.1 = f.file_name)) =
        some (f.file_name, plan) ∧
      plan.access_plan[r.row_group.toNat]? = some RowGroupAccess.scan := by
  have hwf := wf_reachable schema db hr
  have hcmem : (⟨f.file_name, f.file_size_bytes, f.row_group_count, r.row_group⟩ :
      CandidateRow) ∈ findCandidates db q := by
    rw [mem_findCandidates]
    exact ⟨r, hrg, hq, f, hf, hid.symm, rfl⟩
  have hsome : ((findCandidates db q).find? fun c =>
      decide (c.file_name = f.file_name)).isSome := by
    rw [List.find?_isSome]
    exact ⟨_, hcmem, by simp⟩
  obtain ⟨r0, hr0⟩ := Option.isSome_iff_exists.mp hsome
  have hr0mem : r0 ∈ findCandidates db q := List.mem_of_find?_eq_some hr0
  have hr0n : r0.file_name = f.file_name := by
    have := List.find?_some hr0; simpa using this
  have hcons := candidate_consistent db hwf.2.1 q hr0mem hcmem hr0n
  have hbc := candidate_bounds db hwf q hcmem
  have hbc2 : 0 ≤ r.row_group ∧ r.row_group < f.row_group_count := hbc
  have hcnt : r0.row_group_count = f.row_group_count := hcons.1
  refine ⟨⟨asU64 r0.file_size_bytes,
    setScans (newNone r0.row_group_count.toNat)
      (scanIdxs (findCandidates db q) f.file_name)⟩, ?_, ?_⟩
  · rw [getFiles_find?, hr0]
    rfl
  · show (setScans (newNone r0.row_group_count.toNat)
      (scanIdxs (findCandidates db q) f.file_name))[r.row_group.toNat]? =
        some RowGroupAccess.scan
    rw [getElem?_setScans_newNone]
    have hlt : r.row_group.toNat < r0.row_group_count.toNat := by
      omega
    have hmem : r.row_group.toNat ∈ scanIdxs (findCandidates db q) f.file_name := by
      rw [mem_scanIdxs]
      exact ⟨_, hcmem, rfl, rfl⟩
    rw [if_pos hlt, if_pos hmem]

/-- Persisted file row of `dbA`. -/
def fileRowA : FileRow := ⟨1, "f1.parquet", 1234, 2, 20⟩

/-- Persisted statistics row of `dbA` for row group 0. -/
def rgRowA : RowGroupRow := ⟨1, 0, 10, [⟨0, .int 1 100⟩]⟩

/-- C1 witness: soundness applied to the ingested fixture with the
always-true predicate. -/
theorem pruning_soundness_witness :
    ∃ plan : FileScanPlan,
      (getFiles dbA fun _ => true).find?
        (fun e => decide (e.1 = fileRowA.file_name)) =
          some (fileRowA.file_name, plan) ∧
      plan.access_plan[rgRowA.row_group.toNat]? = some RowGroupAccess.scan :=
  pruning_soundness schemaA dbA
    (Reachable.step emptyDB pathA (.ok pfA) dbA Reachable.init (by decide))
    (fun _ => true) fileRowA rgRowA (by decide) (by decide) (by decide) rfl

/-! ## Claim C8 -/

theorem scanIdx_iff (db : DB) (hwf : Wf db) (q : RowGroupRow → Bool)
    (f : FileRow) (hf : f ∈ db.files) (i : Nat) :
    i ∈ scanIdxs (findCandidates db q) f.file_name ↔
      ∃ r ∈ db.rgs, r.file_id = f.file_id ∧ q r = true ∧ r.row_group.toNat = i := by
  rw [mem_scanIdxs]
  constructor
  · rintro ⟨c, hc, hcn, hci⟩
    obtain ⟨rr, hrr, hq, ff, hff, hid, rfl⟩ := (mem_findCandidates db q c).mp hc
    have hffn : ff.file_name = f.file_name := hcn
    have heq : ff = f := file_eq_of_name db hwf.2.1 hff hf hffn
    subst heq
    exact ⟨rr, hrr, hid.symm, hq, hci⟩
  · rintro ⟨rr, hrr, hid, hq, hi⟩
    refine ⟨⟨f.file_name, f.file_size_bytes, f.row_group_count, rr.row_group⟩,
      ?_, rfl, hi⟩
    rw [mem_findCandidates]
    exact ⟨rr, hrr, hq, f, hf, hid.symm, rfl⟩

theorem plan_scan_iff (db : DB) (hwf : Wf db) (q : RowGroupRow → Bool)
    (f : FileRow) (hf : f ∈ db.files) (i : Nat) :
    (setScans (newNone f.row_group_count.toNat)
        (scanIdxs (findCandidates db q) f.file_name))[i]? =
      some RowGroupAccess.scan ↔
      ∃ r ∈ db.rgs, r.file_id = f.file_id ∧ q r = true ∧ r.row_group.toNat = i := by
  rw [getElem?_setScans_newNone]
  constructor
  · intro h
    by_cases hlt : i < f.row_group_count.toNat
    · rw [if_pos hlt] at h
      by_cases hm : i ∈ scanIdxs (findCandidates db q) f.file_name
      · exact (scanIdx_iff db hwf q f hf i).mp hm
      · rw [if_neg hm] at h
        simp at h
    · rw [if_neg hlt] at h
      cases h
  · intro hex
    have hm := (scanIdx_iff db hwf q f hf i).mpr hex
    have hlt : i < f.row_group_count.toNat := by
      obtain ⟨rr, hrr, hid, hq2, hi⟩ := hex
      have hb := hwf.2.2.2 rr hrr f hf hid.symm
      omega
    rw [if_pos hlt, if_pos hm]

theorem plan_skip_iff (db : DB) (hwf : Wf db) (q : RowGroupRow → Bool)
    (f : FileRow) (hf : f ∈ db.files) (i : Nat)
    (hlt : i < f.row_group_count.toNat) :
    (setScans (newNone f.row_group_count.toNat)
        (scanIdxs (findCandidates db q) f.file_name))[i]? =
      some RowGroupAccess.skip ↔
      ¬∃ r ∈ db.rgs, r.file_id = f.file_id ∧ q r = true ∧ r.row_group.toNat = i := by
  rw [getElem?_setScans_newNone, if_pos hlt]
  constructor
  · intro h hex
    have hm := (scanIdx_iff db hwf q f hf i).mpr hex
    rw [if_pos hm] at h
    simp at h
  · intro hnex
    have hm : i ∉ scanIdxs (findCandidates db q) f.file_name :=
      fun hm => hnex ((scanIdx_iff db hwf q f hf i).mp hm)
    rw [if_neg hm]

/-- The access plan of every entry of `get_files` is the Skip-default
plan sized by the entry's file's stored `row_group_count`, with the
candidate row groups set to Scan. -/
theorem plan_entry_char (db : DB) (_hwf : Wf db) (q : RowGroupRow → Bool)
    (e : String × FileScanPlan) (he : e ∈ getFiles db q) :
    ∃ f ∈ db.files, f.file_name = e.1 ∧
      e.2.access_plan = setScans (newNone f.row_group_count.toNat)
        (scanIdxs (findCandidates db q) f.file_name) := by
  have hkeys := nodup_keys_getFiles db q
  have hfind := find?_of_mem_nodup_keys _ hkeys e he
  rw [getFiles_find? db q e.1] at hfind
  cases hr0 : (findCandidates db q).find? fun c => decide (c.file_name = e.1) with
  | none => rw [hr0] at hfind; cases hfind
  | some r0 =>
      rw [hr0] at hfind
      injection hfind with hfind
      have hr0mem : r0 ∈ findCandidates db q := List.mem_of_find?_eq_some hr0
      have hr0n : r0.file_name = e.1 := by
        have := List.find?_some hr0; simpa using this
      obtain ⟨rr0, hrr0, hq0, ff, hff, hid0, hc0⟩ := (mem_findCandidates db q r0).mp hr0mem
      have hffn : ff.file_name = e.1 := by rw [← hr0n, hc0]
      have hcnt : r0.row_group_count = ff.row_group_count := by rw [hc0]
      refine ⟨ff, hff, hffn, ?_⟩
      rw [← hfind]
      show setScans (newNone r0.row_group_count.toNat)
          (scanIdxs (findCandidates db q) e.1) = _
      rw [hcnt, hffn]

/-- C8: Scan-plan assembly.  Over any well-formed state: every entry of
`get_files` belongs to a stored file of that name; its access plan has
length equal to that file's stored `row_group_count`; an index is Scan
exactly when some stored statistics row of that file satisfies the
predicate at that row group, and Skip exactly otherwise (every row group
defaults to Skip); and an entry for a file name exists exactly when that
file has at least one matching row group — a file with zero candidates
is entirely absent. -/
theorem scan_plan_assembly (db : DB) (hwf : Wf db) (q : RowGroupRow → Bool) :
    (∀ e ∈ getFiles db q, ∃ f ∈ db.files, f.file_name = e.1 ∧
      e.2.access_plan.length = f.row_group_count.toNat ∧
      (∀ i : Nat, (e.2.access_plan[i]? = some RowGroupAccess.scan ↔
        ∃ r ∈ db.rgs, r.file_id = f.file_id ∧ q r = true ∧ r.row_group.toNat = i)) ∧
      (∀ i : Nat, i < f.row_group_count.toNat →
        (e.2.access_plan[i]? = some RowGroupAccess.skip ↔
          ¬∃ r ∈ db.rgs, r.file_id = f.file_id ∧ q r = true ∧ r.row_group.toNat = i))) ∧
    (∀ fn : String, ((getFiles db q).find? fun e => decide (e.1 = fn)).isSome ↔
      ∃ f ∈ db.files, f.file_name = fn ∧
        ∃ r ∈ db.rgs, r.file_id = f.file_id ∧ q r = true) := by
  constructor
  · intro e he
    obtain ⟨f, hf, hfn, hap⟩ := plan_entry_char db hwf q e he
    refine ⟨f, hf, hfn, ?_, ?_, ?_⟩
    · rw [hap, length_setScans, newNone, List.length_replicate]
    · intro i
      rw [hap]
      exact plan_scan_iff db hwf q f hf i
    · intro i hi
      rw [hap]
      exact plan_skip_iff db hwf q f hf i hi
  · intro fn
    rw [getFiles_find?]
    constructor
    · intro h
      have h2 : ((findCandidates db q).find? fun c =>
          decide (c.file_name = fn)).isSome := by
        cases hc : (findCandidates db q).find? fun c => decide (c.file_name = fn) with
        | none => rw [hc] at h; cases h
        | some c => rfl
      rw [List.find?_isSome] at h2
      obtain ⟨c, hc, hcp⟩ := h2
      simp only [decide_eq_true_eq] at hcp
      obtain ⟨rr, hrr, hq2, ff, hff, hid, rfl⟩ := (mem_findCandidates db q c).mp hc
      exact ⟨ff, hff, hcp, rr, hrr, hid.symm, hq2⟩
    · rintro ⟨ff, hff, hn, rr, hrr, hid, hq2⟩
      have h2 : ((findCandidates db q).find? fun c =>
          decide (c.file_name = fn)).isSome := by
        rw [List.find?_isSome]
        refine ⟨⟨ff.file_name, ff.file_size_bytes, ff.row_group_count, rr.row_group⟩,
          ?_, by simp [hn]⟩
        rw [mem_findCandidates]
        exact ⟨rr, hrr, hq2, ff, hff, hid.symm, rfl⟩
      obtain ⟨c, hc⟩ := Option.isSome_iff_exists.mp h2
      rw [hc]
      rfl

/-- C8 witness: the assembly characterization applied to the ingested
fixture state with the always-true predicate. -/
theorem scan_plan_assembly_witness :
    (∀ e ∈ getFiles dbA (fun _ => true), ∃ f ∈ dbA.files, f.file_name = e.1 ∧
      e.2.access_plan.length = f.row_group_count.toNat ∧
      (∀ i : Nat, (e.2.access_plan[i]? = some RowGroupAccess.scan ↔
        ∃ r ∈ dbA.rgs, r.file_id = f.file_id ∧ (fun _ => true) r = true ∧
          r.row_group.toNat = i)) ∧
      (∀ i : Nat, i < f.row_group_count.toNat →
        (e.2.access_plan[i]? = some RowGroupAccess.skip ↔
          ¬∃ r ∈ dbA.rgs, r.file_id = f.file_id ∧ (fun _ => true) r = true ∧
            r.row_group.toNat = i))) ∧
    (∀ fn : String,
      ((getFiles dbA (fun _ => true)).find? fun e => decide (e.1 = fn)).isSome ↔
      ∃ f ∈ dbA.files, f.file_name = fn ∧
        ∃ r ∈ dbA.rgs, r.file_id = f.file_id ∧ (fun _ => true) r = true) :=
  scan_plan_assembly dbA (by decide) (fun _ => true)

/-! ## Claim C2 -/

/-- After a successful `add_file`, the persisted statistics rows for the
ingested file's `file_id` are exactly the extracted ones, and its file
record carries the extracted `row_group_count`. -/
theorem addFile_state_char (schema : List SchemaField) (db db' : DB) (p : PathArg)
    (pf : ParquetFile) (fname : String) (hpath : pathString p = some fname)
    (h : addFile schema db p (.ok pf) = .ok db') :
    ∃ fid,
      db'.rgs.filter (fun r => decide (r.file_id = fid)) =
        (extractRowGroupStatistics schema pf).map (toRGRow fid) ∧
      ∃ rec ∈ db'.files, rec.file_name = fname ∧ rec.file_id = fid ∧
        rec.row_group_count = (pf.numRowGroups : Int) := by
  obtain ⟨fname2, pf2, hpath2, hpf2, har⟩ := addFile_ok schema db p (.ok pf) db' h
  injection hpf2 with hpf2
  subst hpf2
  have hfn : fname2 = fname := by
    rw [hpath2] at hpath
    exact Option.some.inj hpath
  subst hfn
  obtain ⟨hfiles, hnext, hrgs⟩ := addRow_some _ _ _ _ _ har
  refine ⟨(upsertFile db
    ⟨fname2, pf.fileSize, (pf.numRowGroups : Int), pf.numRows⟩).2, ?_, ?_⟩
  · rw [hrgs]
    exact filter_eq_append_map _ _ _
  · obtain ⟨rec, hrecmem, hrn, hrid, hrsz, hrcnt⟩ := upsertFile_mem_record db
      ⟨fname2, pf.fileSize, (pf.numRowGroups : Int), pf.numRows⟩
    refine ⟨rec, ?_, hrn, hrid, hrcnt⟩
    rw [hfiles]
    exact hrecmem

/-- C2: Round trip.  After ingesting a file (with at least one row
group) into a well-formed state, querying with the trivially-true
predicate returns an entry for that file whose access plan has exactly
`row_group_count` slots, all set to Scan — every row group 0..n-1
appears, each exactly once — and the result carries exactly one entry
for that file name. -/
theorem round_trip_trivial_predicate (schema : List SchemaField) (db db' : DB)
    (p : PathArg) (pf : ParquetFile) (fname : String)
    (hwf : Wf db) (hpath : pathString p = some fname)
    (hn : 0 < pf.numRowGroups)
    (h : addFile schema db p (.ok pf) = .ok db') :
    ∃ plan : FileScanPlan,
      (getFiles db' fun _ => true).find? (fun e => decide (e.1 = fname)) =
        some (fname, plan) ∧
      plan.access_plan.length = pf.numRowGroups ∧
      (∀ i, i < pf.numRowGroups → plan.access_plan[i]? = some RowGroupAccess.scan) ∧
      ((getFiles db' fun _ => true).map Prod.fst).count fname = 1 := by
  have hwf' := wf_addFile schema db p (.ok pf) db' h hwf
  obtain ⟨fid, hfilter, rec, hrecmem, hrn, hrid, hrcnt⟩ :=
    addFile_state_char schema db db' p pf fname hpath h
  have hrowiff : ∀ rr : RowGroupRow, (rr ∈ db'.rgs ∧ rr.file_id = fid) ↔
      rr ∈ (extractRowGroupStatistics schema pf).map (toRGRow fid) := by
    intro rr
    rw [← hfilter, List.mem_filter]
    simp
  have hidx : ∀ i : Nat,
      (∃ r ∈ db'.rgs, r.file_id = rec.file_id ∧ (fun _ : RowGroupRow => true) r = true ∧
        r.row_group.toNat = i) ↔ i < pf.numRowGroups := by
    intro i
    constructor
    · rintro ⟨rr, hrr, hrid2, _, hi⟩
      have hmap := (hrowiff rr).mp ⟨hrr, by rw [hrid2, hrid]⟩
      obtain ⟨s, hs, rfl⟩ := List.mem_map.mp hmap
      rw [extractRowGroupStatistics] at hs
      obtain ⟨rg, hrgmem, rfl⟩ := List.mem_map.mp hs
      rw [List.mem_range] at hrgmem
      have hii : ((rg : Int)).toNat = i := hi
      omega
    · intro hi
      refine ⟨toRGRow fid
        ⟨Int.ofNat i, pf.rowCounts i,
          schema.filterMap fun fld =>
            extractColumnStats fld.dataType (pf.columns fld.name) i⟩, ?_, ?_, rfl, ?_⟩
      · refine ((hrowiff _).mpr ?_).1
        refine List.mem_map.mpr ⟨_, ?_, rfl⟩
        rw [extractRowGroupStatistics]
        exact List.mem_map.mpr ⟨i, List.mem_range.mpr hi, rfl⟩
      · rw [hrid]
        rfl
      · show ((i : Int)).toNat = i
        omega
  have hex0 := (hidx 0).mpr hn
  obtain ⟨rr0, hrr0, hrid0, _, hi0⟩ := hex0
  have hc0mem : (⟨rec.file_name, rec.file_size_bytes, rec.row_group_count,
      rr0.row_group⟩ : CandidateRow) ∈ findCandidates db' fun _ => true := by
    rw [mem_findCandidates]
    exact ⟨rr0, hrr0, rfl, rec, hrecmem, hrid0.symm, rfl⟩
  have hsome : ((findCandidates db' fun _ => true).find? fun c =>
      decide (c.file_name = fname)).isSome := by
    rw [List.find?_isSome]
    exact ⟨_, hc0mem, by simp [hrn]⟩
  obtain ⟨r0, hr0⟩ := Option.isSome_iff_exists.mp hsome
  have hr0mem := List.mem_of_find?_eq_some hr0
  have hr0n : r0.file_name = fname := by
    have := List.find?_some hr0; simpa using this
  have hcons := candidate_consistent db' hwf'.2.1 _ hr0mem hc0mem
    (by rw [hr0n]; exact hrn.symm)
  have hcnt : r0.row_group_count = (pf.numRowGroups : Int) := by
    have h1 : r0.row_group_count = rec.row_group_count := hcons.1
    rw [h1, hrcnt]
  have hidxs : ∀ i, i ∈ scanIdxs (findCandidates db' fun _ => true) fname ↔
      i < pf.numRowGroups := by
    intro i
    rw [show fname = rec.file_name from hrn.symm,
      scanIdx_iff db' hwf' _ rec hrecmem i]
    exact hidx i
  have hfind : (getFiles db' fun _ => true).find? (fun e => decide (e.1 = fname)) =
      some (fname, ⟨asU64 r0.file_size_bytes,
        setScans (newNone r0.row_group_count.toNat)
          (scanIdxs (findCandidates db' fun _ => true) fname)⟩) := by
    rw [getFiles_find?, hr0]
    rfl
  refine ⟨_, hfind, ?_, ?_, ?_⟩
  · show (setScans (newNone r0.row_group_count.toNat)
      (scanIdxs (findCandidates db' fun _ => true) fname)).length = pf.numRowGroups
    rw [length_setScans, newNone, List.length_replicate, hcnt]
    omega
  · intro i hi
    show (setScans (newNone r0.row_group_count.toNat)
      (scanIdxs (findCandidates db' fun _ => true) fname))[i]? =
        some RowGroupAccess.scan
    rw [getElem?_setScans_newNone]
    have hlt : i < r0.row_group_count.toNat := by
      rw [hcnt]
      omega
    rw [if_pos hlt, if_pos ((hidxs i).mpr hi)]
  · have hmem := List.mem_of_find?_eq_some hfind
    exact List.count_eq_one_of_mem (nodup_keys_getFiles db' _)
      (List.mem_map.mpr ⟨_, hmem, rfl⟩)

/-- C3 witness: idempotence applied to the concrete `pfA` payloads. -/
theorem add_row_idempotent_witness :
    ∃ db2, addRow schemaA dbB finsA rgssA = some db2 ∧
      db2.files = dbB.files ∧ db2.rgs = dbB.rgs ∧
      (upsertFile dbB finsA).2 = (upsertFile emptyDB finsA).2 :=
  add_row_idempotent schemaA emptyDB dbB finsA rgssA (by decide)

/-- Second version of the fixture file: same name, different size and
row-group count. -/
def finsA2 : FileStatisticsInsert := ⟨"f1.parquet", 5678, 1, 7⟩

/-- Row-group payloads of the second version. -/
def rgssA2 : List RowGroupStatisticsInsert := [⟨0, 7, [⟨0, .int 1 5⟩]⟩]

/-- State after re-ingesting the same file name with different
statistics. -/
def dbC : DB := (addRow schemaA dbB finsA2 rgssA2).getD emptyDB

/-- C4 witness: replacement applied to a concrete re-ingestion with a
different size and row-group count. -/
theorem update_replaces_row_groups_witness :
    (upsertFile dbB finsA2).2 = (upsertFile emptyDB finsA).2 ∧
    dbC.rgs.filter (fun r => decide (r.file_id = (upsertFile dbB finsA2).2)) =
      rgssA2.map (toRGRow (upsertFile dbB finsA2).2) :=
  update_replaces_row_groups schemaA emptyDB dbB dbC finsA finsA2 rgssA rgssA2
    rfl (by decide) (by decide)

/-- C2 witness: the round trip applied to the two-row-group fixture. -/
theorem round_trip_trivial_predicate_witness :
    ∃ plan : FileScanPlan,
      (getFiles dbA fun _ => true).find? (fun e => decide (e.1 = "f1.parquet")) =
        some ("f1.parquet", plan) ∧
      plan.access_plan.length = pfA.numRowGroups ∧
      (∀ i, i < pfA.numRowGroups → plan.access_plan[i]? = some RowGroupAccess.scan) ∧
      ((getFiles dbA fun _ => true).map Prod.fst).count "f1.parquet" = 1 :=
  round_trip_trivial_predicate schemaA emptyDB dbA pathA pfA "f1.parquet"
    (by decide) (by decide) (by decide) (by decide)

end ParquetIndex
